import Mathlib

set_option maxRecDepth 10000

/-! Shallow embedding of the upbit-monitor announcement pipeline:
    `extract.py` (title parsing) and `upbit_monitor.py` (fetching, dedup,
    reaction, heartbeat and the monitor loop). -/

/-- ASCII whitespace as recognized by Python's `str.split`, `str.strip` and
the regex class for whitespace, restricted to the ASCII range these inputs
use. -/
def isPySpace (c : Char) : Bool :=
  c = ' ' || c = '\t' || c = '\n' || c = '\r' || c.toNat = 11 || c.toNat = 12

/-- Python `str.split()` with no separator: split on whitespace runs and drop
empty pieces.  `acc` is the current word accumulated in reverse. -/
def pySplitWs : List Char → List Char → List (List Char)
| [], acc => if acc.isEmpty then [] else [acc.reverse]
| c :: cs, acc =>
  if isPySpace c then
    if acc.isEmpty then pySplitWs cs []
    else acc.reverse :: pySplitWs cs []
  else pySplitWs cs (c :: acc)

/-- The normalization step of `MarketSupportExtractor.extract_market_info`:
join the words of `text.split()` with single spaces. -/
def cleanText (s : List Char) : List Char :=
  List.intercalate [' '] (pySplitWs s [])

/-- Python `str.strip()`: drop leading and trailing whitespace. -/
def pyStrip (s : List Char) : List Char :=
  ((s.dropWhile isPySpace).reverse.dropWhile isPySpace).reverse

/-- Python `str.split(sep=",")`: split at every comma, keeping empty pieces. -/
def splitComma : List Char → List (List Char)
| [] => [[]]
| c :: cs =>
  if c = ',' then [] :: splitComma cs
  else
    match splitComma cs with
    | t :: ts => (c :: t) :: ts
    | [] => [[c]]

/-- One element of the fixed regular expression used by the extractor: either
a literal string, or a repeated character class with a minimum repetition
count, a greedy flag and a capture flag. -/
inductive RTok
| lit : List Char → RTok
| cls : (Char → Bool) → Nat → Bool → Bool → RTok

/-- Consume a literal from the front of the input, returning the rest. -/
def litMatch : List Char → List Char → Option (List Char)
| [], s => some s
| _ :: _, [] => none
| c :: cs, d :: ds => if c = d then litMatch cs ds else none

/-- Length of the longest run of class characters at the front of the input. -/
def maxRun (p : Char → Bool) : List Char → Nat
| [] => 0
| c :: cs => if p c then maxRun p cs + 1 else 0

/-- Repetition counts a backtracking engine tries for one class element, in
order: longest first when greedy, shortest first when lazy. -/
def countsFor (p : Char → Bool) (mn : Nat) (greedy : Bool) (s : List Char) : List Nat :=
  let asc := (List.range (maxRun p s + 1)).filter (fun k => mn ≤ k)
  if greedy then asc.reverse else asc

/-- Backtracking matcher for a token list anchored at the start of the input;
returns the captured groups in pattern order.  Alternatives are tried
depth-first in pattern order, which is Python `re`'s backtracking order. -/
def matchToks : List RTok → List Char → Option (List (List Char))
| [], _ => some []
| RTok.lit l :: rest, s =>
  match litMatch l s with
  | some s2 => matchToks rest s2
  | none => none
| RTok.cls p mn greedy cap :: rest, s =>
  (countsFor p mn greedy s).findSome? (fun k =>
    match matchToks rest (s.drop k) with
    | some caps => some (if cap then s.take k :: caps else caps)
    | none => none)

/-- Python `re.search`: try the anchored match at each start position, left to
right, returning the first success. -/
def reSearch (toks : List RTok) : List Char → Option (List (List Char))
| [] => matchToks toks []
| c :: rest =>
  match matchToks toks (c :: rest) with
  | some caps => some caps
  | none => reSearch toks rest

/-- Character class of the symbol capture: uppercase letters and digits. -/
def isUpperDigit (c : Char) : Bool :=
  ('A' ≤ c && c ≤ 'Z') || ('0' ≤ c && c ≤ '9')

/-- Character class of the dot: any character except a newline. -/
def notNewline (c : Char) : Bool := c ≠ '\n'

/-- Token form of `MarketSupportExtractor.pattern`: the literal
`Market Support for`, one-or-more whitespace, a lazy dot-plus capture (name),
a parenthesized greedy uppercase/digit capture (symbol), optional whitespace,
then a parenthesized lazy dot-plus capture followed by one-or-more whitespace
and the literal `Market`. -/
def marketSupportPattern : List RTok :=
  [ RTok.lit "Market Support for".toList
  , RTok.cls isPySpace 1 true false
  , RTok.cls notNewline 1 false true
  , RTok.lit ['(']
  , RTok.cls isUpperDigit 1 true true
  , RTok.lit [')']
  , RTok.cls isPySpace 0 true false
  , RTok.lit ['(']
  , RTok.cls notNewline 1 false true
  , RTok.cls isPySpace 1 true false
  , RTok.lit "Market".toList
  , RTok.lit [')'] ]

/-- Case-insensitive consumption of a literal from the front of the input. -/
def dropCI : List Char → List Char → Option (List Char)
| [], s => some s
| _ :: _, [] => none
| c :: cs, d :: ds => if c.toLower = d.toLower then dropCI cs ds else none

/-- One match attempt of optional-whitespace `Market` optional-whitespace
(IGNORECASE) at the front of the input.  The leading whitespace repetition
must reach the first non-space character: shorter choices leave a whitespace
character where the keyword would have to start, so backtracking cannot
produce another match. -/
def subMarketAt (s : List Char) : Option (List Char) :=
  match dropCI "Market".toList (s.dropWhile isPySpace) with
  | some r => some (r.dropWhile isPySpace)
  | none => none

/-- Fuel-driven scan for the extractor's substitution: delete every
non-overlapping occurrence of optional-whitespace `Market` optional-whitespace
(case-insensitive), scanning left to right.  The fuel only bounds the
recursion; `reSubMarket` passes the input length, which always suffices
because every step consumes at least one character. -/
def reSubMarketGo : Nat → List Char → List Char
| 0, s => s
| _, [] => []
| fuel + 1, c :: cs =>
  match subMarketAt (c :: cs) with
  | some rest => reSubMarketGo fuel rest
  | none => c :: reSubMarketGo fuel cs

/-- The `re.sub` call of `parse_quote_currencies`. -/
def reSubMarket (s : List Char) : List Char :=
  reSubMarketGo s.length s

/-- `MarketSupportExtractor.parse_quote_currencies`: split the market clause
on commas, strip each token, delete every case-insensitive `Market` occurrence
(with adjacent whitespace), strip again, and keep the non-empty results in
order. -/
def parse_quote_currencies (markets_text : String) : List String :=
  let currencies := (splitComma markets_text.toList).map pyStrip
  ((currencies.map (fun c => pyStrip (reSubMarket c))).filter
      (fun c => !c.isEmpty)).map List.asString

/-- Output of the Title Parser. -/
structure ListingRecord where
  symbol : String
  name : String
  quote : List String
deriving DecidableEq

/-- `MarketSupportExtractor.extract_market_info`: normalize whitespace, search
for the listing pattern, and build the record from the three captured groups;
`none` models Python's `None` on a failed match. -/
def extract_market_info (text : String) : Option ListingRecord :=
  match reSearch marketSupportPattern (cleanText text.toList) with
  | some [g1, g2, g3] =>
    some { symbol := (pyStrip g2).asString
         , name := (pyStrip g1).asString
         , quote := parse_quote_currencies (pyStrip g3).asString }
  | _ => none

/-- Python exceptions the monitor's code paths can raise. -/
inductive PyErr
| noMatch
| valueError
| keyError
| jsonDecode
deriving DecidableEq

/-- `extract.extract_from_text`: return the parsed record, or raise the
`No match found` exception when the pattern does not match. -/
def extract_from_text (input_text : String) : Except PyErr ListingRecord :=
  match extract_market_info input_text with
  | some r => Except.ok r
  | none => Except.error PyErr.noMatch

/-- One item of the upstream feed, as consumed by the monitor. -/
structure Announcement where
  id : Nat
  title : String
  listed_at : String
  created_at : String
  url : String
deriving DecidableEq

/-- Body of an HTTP response from the feed endpoint, as seen by
`fetch_announcements` after `raise_for_status` passed: the body may fail to
decode as JSON, decode but lack the `data`/`notices` structure the code
indexes into, or carry the newest-first notice list. -/
inductive Body
| undecodable
| malformed
| notices : List Announcement → Body
deriving DecidableEq

/-- Outcome of one `requests.get` call: a response (with its body), a
transport-level proxy error, or any other request exception (connection
errors, timeouts, and HTTP error statuses raised by `raise_for_status`). -/
inductive AttemptResult
| ok : Body → AttemptResult
| proxyError
| requestError
deriving DecidableEq

/-- The body-processing lines of `fetch_announcements`: decode the JSON,
index `data` and `notices` (a `KeyError` when the decoded body lacks them),
and reverse the newest-first list. -/
def decode_notices : Body → Except PyErr (List Announcement)
| Body.undecodable => Except.error PyErr.jsonDecode
| Body.malformed => Except.error PyErr.keyError
| Body.notices l => Except.ok l.reverse

/-- `UpbitAnnouncementMonitor.fetch_announcements`, as a function of the
outcome of the primary request (proxied when a proxy is configured) and of
the direct-connection fallback request.  The primary handlers catch the
proxy error (falling back to the direct attempt, whose failures are all
swallowed), other request exceptions and JSON decode errors; a `KeyError`
from a decodable but malformed body on the primary path is not caught. -/
def fetch_announcements :
    AttemptResult → AttemptResult → Except PyErr (List Announcement)
| AttemptResult.ok b, _ =>
  match decode_notices b with
  | Except.ok l => Except.ok l
  | Except.error PyErr.jsonDecode => Except.ok []
  | Except.error e => Except.error e
| AttemptResult.requestError, _ => Except.ok []
| AttemptResult.proxyError, fb =>
  match fb with
  | AttemptResult.ok b =>
    match decode_notices b with
    | Except.ok l => Except.ok l
    | Except.error _ => Except.ok []
  | _ => Except.ok []

/-- Outcomes of the external calls a reaction makes, everything the reaction's
behaviour depends on besides the announcement itself: whether
`datetime.fromisoformat` accepts the announcement's timestamp string, and
whether the order placement and the Telegram delivery succeed (both of those
failures are caught where they arise and only change the message text or the
returned flag). -/
structure Env where
  fromisoOk : String → Bool
  orderOk : Nat → Bool
  telegramOk : Nat → Bool

/-- Side effects of one completed reaction: whether the order succeeded and
whether the Telegram delivery succeeded. -/
structure ReactEffects where
  orderPlaced : Bool
  messageDelivered : Bool
deriving DecidableEq

/-- `UpbitAnnouncementMonitor.process_new_announcement_message`: it first
formats the message, which calls `kst_to_utc` (raising a `ValueError` on a
timestamp `datetime.fromisoformat` rejects) and then `extract_from_text`
(raising on a title that does not match); only after both succeed does it
place the order (failures caught and turned into text) and send the Telegram
message (failures caught and logged inside the send helper). -/
def process_new_announcement_message (env : Env) (a : Announcement) :
    Except PyErr ReactEffects :=
  if env.fromisoOk a.listed_at then
    match extract_from_text a.title with
    | Except.ok _ =>
      Except.ok { orderPlaced := env.orderOk a.id
                , messageDelivered := env.telegramOk a.id }
    | Except.error e => Except.error e
  else
    Except.error PyErr.valueError

/-- What happened in the reaction loop of one cycle: the ids for which
`process_new_announcement_message` was invoked, in order, and the exception
(if any) that aborted the loop.  An exception aborts the loop at the failing
announcement; the ids after it are never reacted to. -/
structure ReactRun where
  invoked : List Nat
  err : Option PyErr
deriving DecidableEq

/-- The reaction loop at the end of `check_new_announcements`. -/
def reactAll (env : Env) : List Announcement → ReactRun
| [] => ⟨[], none⟩
| a :: rest =>
  match process_new_announcement_message env a with
  | Except.ok _ =>
    let r := reactAll env rest
    ⟨a.id :: r.invoked, r.err⟩
  | Except.error e => ⟨[a.id], some e⟩

/-- The monitor's mutable state: the set of seen announcement ids and the
time of the last heartbeat notification. -/
structure MonitorState where
  seen_announcements : Finset Nat
  last_refresh_time : Option Nat
deriving DecidableEq

/-- Result of one call to `check_new_announcements`: the state after the
cycle, the reacted ids, whether the heartbeat message was sent, and the
exception (if any) that escaped the cycle. -/
structure CycleResult where
  state : MonitorState
  invoked : List Nat
  heartbeatSent : Bool
  error : Option PyErr
deriving DecidableEq

/-- The dedup loop of `check_new_announcements`: walk the fetched list in
order, skip ids already seen, and add each kept announcement's id to the seen
set before examining the next item.  Returns the grown seen set and the kept
announcements in fetch order. -/
def selectNew (seen : Finset Nat) : List Announcement → Finset Nat × List Announcement
| [] => (seen, [])
| a :: rest =>
  if a.id ∈ seen then selectNew seen rest
  else
    let p := selectNew (insert a.id seen) rest
    (p.1, a :: p.2)

/-- The heartbeat condition: never sent, or sent more than 3600 seconds ago. -/
def heartbeatDue (t : Nat) : Option Nat → Bool
| none => true
| some lr => decide (3600 < t - lr)

/-- `UpbitAnnouncementMonitor.check_new_announcements`, as a function of the
current time and the fetched list: return immediately when the fetch came
back empty; otherwise claim the new announcements (marking every one of them
seen before any reaction runs), send the heartbeat when nothing was new and
it is due, and then react to the new announcements in order.  The state is
committed before the reaction loop, so an exception escaping a reaction
leaves the already-updated state behind. -/
def check_new_announcements (env : Env) (t : Nat) (st : MonitorState)
    (announcements : List Announcement) : CycleResult :=
  if announcements.isEmpty then ⟨st, [], false, none⟩
  else
    let p := selectNew st.seen_announcements announcements
    let hb := p.2.isEmpty && heartbeatDue t st.last_refresh_time
    let lr2 := if hb then some t else st.last_refresh_time
    let r := reactAll env p.2
    ⟨⟨p.1, lr2⟩, r.invoked, hb, r.err⟩

/-- The startup block of `run_monitor`: mark every id of the initial fetch as
seen, without reacting; the heartbeat clock starts unset. -/
def run_monitor_init (initial : List Announcement) : MonitorState :=
  ⟨initial.foldl (fun s a => insert a.id s) ∅, none⟩

/-- The polling loop of `run_monitor` on a finite schedule of cycles, each
given by its clock reading and its fetched announcement list; states are
threaded through the cycles and every cycle's result is recorded. -/
def run_cycles (env : Env) :
    List (Nat × List Announcement) → MonitorState → MonitorState × List CycleResult
| [], st => (st, [])
| e :: rest, st =>
  let r := check_new_announcements env e.1 st e.2
  let p := run_cycles env rest r.state
  (p.1, r :: p.2)

/-- All ids reacted to over a sequence of cycle results, in order. -/
def allInvoked (rs : List CycleResult) : List Nat :=
  (rs.map CycleResult.invoked).flatten

/-- All announcement ids fetched over a schedule of cycles. -/
def traceIdset : List (Nat × List Announcement) → Finset Nat
| [] => ∅
| e :: rest => (e.2.map Announcement.id).toFinset ∪ traceIdset rest

/-- `UpbitAnnouncementMonitor.is_recent_announcement`, with instants measured
in minutes: the announcement date is within `minutes_threshold` minutes of
now.  The source defines this helper but never calls it. -/
def is_recent_announcement (now announcement_date minutes_threshold : Int) : Bool :=
  decide (now - minutes_threshold ≤ announcement_date)

/-- What one iteration of the `while True` loop body produced: a normal
completion of `check_new_announcements`, an exception escaping it, or a
`KeyboardInterrupt`. -/
inductive CycleOutcome
| ok
| exc : PyErr → CycleOutcome
| interrupt
deriving DecidableEq

/-- Observable trace of the polling loop: the iterations that actually ran,
how many of them were followed by the interval sleep, and whether the loop
was terminated (by the interrupt) rather than left running. -/
structure LoopTrace where
  executed : List CycleOutcome
  sleeps : Nat
  stopped : Bool
deriving DecidableEq

/-- The `while True` loop of `run_monitor` over a finite schedule of
iteration outcomes: a `KeyboardInterrupt` breaks the loop; an ordinary
exception is caught at the loop boundary, the interval sleep runs, and the
next iteration proceeds, exactly as after a normal iteration. -/
def run_monitor_loop : List CycleOutcome → LoopTrace
| [] => ⟨[], 0, false⟩
| CycleOutcome.interrupt :: _ => ⟨[CycleOutcome.interrupt], 0, true⟩
| c :: rest =>
  let t := run_monitor_loop rest
  ⟨c :: t.executed, t.sleeps + 1, t.stopped⟩

/-- Follows the spec's words, not the source: the spec describes the
quote-currency cleanup as stripping a case-insensitive `Market` keyword "as a
whole word, anywhere in the token", so this variant deletes exactly the
whitespace-delimited words equal to `market` (case-insensitively) and keeps
everything else.  It exists solely to compare the spec's description with
`parse_quote_currencies`. -/
def parse_quote_currencies_spec (markets_text : String) : List String :=
  let currencies := (splitComma markets_text.toList).map pyStrip
  ((currencies.map (fun c =>
      List.intercalate [' ']
        ((pySplitWs c []).filter
          (fun w => !(w.map Char.toLower == "market".toList))))).filter
      (fun c => !c.isEmpty)).map List.asString

theorem selectNew_seen_eq (seen : Finset Nat) (l : List Announcement) :
    (selectNew seen l).1 = seen ∪ (l.map Announcement.id).toFinset := by
  induction l generalizing seen with
  | nil => simp [selectNew]
  | cons a rest ih =>
    rw [selectNew]
    by_cases h : a.id ∈ seen
    · rw [if_pos h, ih]
      ext i
      simp only [Finset.mem_union, List.map_cons, List.toFinset_cons, Finset.mem_insert]
      constructor
      · tauto
      · rintro (hi | rfl | hi)
        · tauto
        · exact Or.inl h
        · tauto
    · rw [if_neg h]
      show (selectNew (insert a.id seen) rest).1 = _
      rw [ih]
      ext i
      simp only [Finset.mem_union, Finset.mem_insert, List.map_cons, List.toFinset_cons]
      tauto

theorem selectNew_not_seen (seen : Finset Nat) (l : List Announcement) :
    ∀ a ∈ (selectNew seen l).2, a.id ∉ seen := by
  induction l generalizing seen with
  | nil => simp [selectNew]
  | cons b rest ih =>
    rw [selectNew]
    by_cases h : b.id ∈ seen
    · rw [if_pos h]; exact ih seen
    · rw [if_neg h]
      show ∀ a ∈ b :: (selectNew (insert b.id seen) rest).2, a.id ∉ seen
      intro a ha
      rcases List.mem_cons.mp ha with rfl | ha2
      · exact h
      · intro hs
        exact ih (insert b.id seen) a ha2 (Finset.mem_insert_of_mem hs)

theorem selectNew_nodup (seen : Finset Nat) (l : List Announcement) :
    ((selectNew seen l).2.map Announcement.id).Nodup := by
  induction l generalizing seen with
  | nil => simp [selectNew]
  | cons b rest ih =>
    rw [selectNew]
    by_cases h : b.id ∈ seen
    · rw [if_pos h]; exact ih seen
    · rw [if_neg h]
      show (List.map Announcement.id (b :: (selectNew (insert b.id seen) rest).2)).Nodup
      rw [List.map_cons]
      refine List.nodup_cons.mpr ⟨?_, ih (insert b.id seen)⟩
      intro hmem
      rcases List.mem_map.mp hmem with ⟨a, ha, hae⟩
      exact selectNew_not_seen (insert b.id seen) rest a ha
        (by rw [hae]; exact Finset.mem_insert_self b.id seen)

theorem selectNew_sublist (seen : Finset Nat) (l : List Announcement) :
    (selectNew seen l).2.Sublist l := by
  induction l generalizing seen with
  | nil => simp [selectNew]
  | cons b rest ih =>
    rw [selectNew]
    by_cases h : b.id ∈ seen
    · rw [if_pos h]; exact (ih seen).cons b
    · rw [if_neg h]
      show (b :: (selectNew (insert b.id seen) rest).2).Sublist (b :: rest)
      exact (ih (insert b.id seen)).cons₂ b

theorem selectNew_mem (seen : Finset Nat) (l : List Announcement) (a : Announcement)
    (hl : a ∈ l) (hs : a.id ∉ seen) :
    a.id ∈ (selectNew seen l).2.map Announcement.id := by
  induction l generalizing seen with
  | nil => cases hl
  | cons b rest ih =>
    rw [selectNew]
    by_cases h : b.id ∈ seen
    · rw [if_pos h]
      rcases List.mem_cons.mp hl with rfl | hl2
      · exact absurd h hs
      · exact ih seen hl2 hs
    · rw [if_neg h]
      show a.id ∈ List.map Announcement.id (b :: (selectNew (insert b.id seen) rest).2)
      rw [List.map_cons]
      rcases List.mem_cons.mp hl with rfl | hl2
      · exact List.mem_cons_self _ _
      · by_cases hab : a.id = b.id
        · rw [hab]; exact List.mem_cons_self _ _
        · refine List.mem_cons_of_mem _ (ih (insert b.id seen) hl2 ?_)
          intro hmem
          rcases Finset.mem_insert.mp hmem with h1 | h2
          · exact hab h1
          · exact hs h2

theorem selectNew_id_congr (seen : Finset Nat) (l1 l2 : List Announcement)
    (h : l1.map Announcement.id = l2.map Announcement.id) :
    (selectNew seen l1).1 = (selectNew seen l2).1
    ∧ (selectNew seen l1).2.map Announcement.id
        = (selectNew seen l2).2.map Announcement.id := by
  induction l1 generalizing seen l2 with
  | nil =>
    cases l2 with
    | nil => exact ⟨rfl, rfl⟩
    | cons b r => simp at h
  | cons a r1 ih =>
    cases l2 with
    | nil => simp at h
    | cons b r2 =>
      rw [List.map_cons, List.map_cons] at h
      injection h with hab hr
      rw [selectNew, selectNew, hab]
      by_cases hm : b.id ∈ seen
      · rw [if_pos hm, if_pos hm]
        exact ih seen r2 hr
      · rw [if_neg hm, if_neg hm]
        obtain ⟨ih1, ih2⟩ := ih (insert b.id seen) r2 hr
        constructor
        · show (selectNew (insert b.id seen) r1).1 = (selectNew (insert b.id seen) r2).1
          exact ih1
        · show List.map Announcement.id (a :: (selectNew (insert b.id seen) r1).2)
            = List.map Announcement.id (b :: (selectNew (insert b.id seen) r2).2)
          rw [List.map_cons, List.map_cons, hab, ih2]

theorem reactAll_invoked_sublist (env : Env) (l : List Announcement) :
    (reactAll env l).invoked.Sublist (l.map Announcement.id) := by
  induction l with
  | nil => simp [reactAll]
  | cons a rest ih =>
    cases hp : process_new_announcement_message env a with
    | ok eff =>
      simp only [reactAll, hp]
      rw [List.map_cons]
      exact ih.cons₂ a.id
    | error e =>
      simp only [reactAll, hp]
      rw [List.map_cons]
      exact (List.nil_sublist _).cons₂ a.id

theorem reactAll_invoked_no_err (env : Env) (l : List Announcement)
    (h : (reactAll env l).err = none) :
    (reactAll env l).invoked = l.map Announcement.id := by
  induction l with
  | nil => simp [reactAll]
  | cons a rest ih =>
    cases hp : process_new_announcement_message env a with
    | ok eff =>
      simp only [reactAll, hp] at h ⊢
      rw [List.map_cons, ih h]
    | error e => simp [reactAll, hp] at h

theorem check_state_seen (env : Env) (t : Nat) (st : MonitorState) (l : List Announcement) :
    (check_new_announcements env t st l).state.seen_announcements
      = st.seen_announcements ∪ (l.map Announcement.id).toFinset := by
  cases l with
  | nil => simp [check_new_announcements]
  | cons a rest =>
    rw [check_new_announcements, if_neg (by simp)]
    show (selectNew st.seen_announcements (a :: rest)).1 = _
    exact selectNew_seen_eq _ _

theorem check_invoked_eq (env : Env) (t : Nat) (st : MonitorState) (l : List Announcement) :
    (check_new_announcements env t st l).invoked
      = (reactAll env (selectNew st.seen_announcements l).2).invoked := by
  cases l with
  | nil => simp [check_new_announcements, selectNew, reactAll]
  | cons a rest =>
    rw [check_new_announcements, if_neg (by simp)]

theorem check_error_eq (env : Env) (t : Nat) (st : MonitorState) (l : List Announcement) :
    (check_new_announcements env t st l).error
      = (reactAll env (selectNew st.seen_announcements l).2).err := by
  cases l with
  | nil => simp [check_new_announcements, selectNew, reactAll]
  | cons a rest =>
    rw [check_new_announcements, if_neg (by simp)]

theorem check_state_indep (env env2 : Env) (t : Nat) (st : MonitorState)
    (l : List Announcement) :
    (check_new_announcements env t st l).state
      = (check_new_announcements env2 t st l).state := by
  cases l with
  | nil => rfl
  | cons a rest => rfl

theorem check_heartbeat_eq (env : Env) (t : Nat) (st : MonitorState)
    (l : List Announcement) (hne : l ≠ []) :
    (check_new_announcements env t st l).heartbeatSent
      = ((selectNew st.seen_announcements l).2.isEmpty
          && heartbeatDue t st.last_refresh_time) := by
  cases l with
  | nil => exact absurd rfl hne
  | cons a rest =>
    rw [check_new_announcements, if_neg (by simp)]

theorem check_lastrefresh_eq (env : Env) (t : Nat) (st : MonitorState)
    (l : List Announcement) (hne : l ≠ []) :
    (check_new_announcements env t st l).state.last_refresh_time
      = (if ((selectNew st.seen_announcements l).2.isEmpty
            && heartbeatDue t st.last_refresh_time) then some t
         else st.last_refresh_time) := by
  cases l with
  | nil => exact absurd rfl hne
  | cons a rest =>
    rw [check_new_announcements, if_neg (by simp)]

theorem check_invoked_in_ids (env : Env) (t : Nat) (st : MonitorState)
    (l : List Announcement) :
    ∀ i ∈ (check_new_announcements env t st l).invoked, i ∈ l.map Announcement.id := by
  intro i hi
  rw [check_invoked_eq] at hi
  have h1 := (reactAll_invoked_sublist env _).subset hi
  exact ((selectNew_sublist st.seen_announcements l).map Announcement.id).subset h1

theorem check_invoked_in_seen (env : Env) (t : Nat) (st : MonitorState)
    (l : List Announcement) :
    ∀ i ∈ (check_new_announcements env t st l).invoked,
      i ∈ (check_new_announcements env t st l).state.seen_announcements := by
  intro i hi
  rw [check_state_seen]
  exact Finset.mem_union_right _
    (List.mem_toFinset.mpr (check_invoked_in_ids env t st l i hi))

theorem check_invoked_not_seen (env : Env) (t : Nat) (st : MonitorState)
    (l : List Announcement) :
    ∀ i ∈ (check_new_announcements env t st l).invoked, i ∉ st.seen_announcements := by
  intro i hi
  rw [check_invoked_eq] at hi
  have h1 := (reactAll_invoked_sublist env _).subset hi
  rcases List.mem_map.mp h1 with ⟨a, ha, rfl⟩
  exact selectNew_not_seen _ _ a ha

theorem check_invoked_nodup (env : Env) (t : Nat) (st : MonitorState)
    (l : List Announcement) :
    (check_new_announcements env t st l).invoked.Nodup := by
  rw [check_invoked_eq]
  exact (selectNew_nodup st.seen_announcements l).sublist (reactAll_invoked_sublist env _)

theorem check_invoked_complete (env : Env) (t : Nat) (st : MonitorState)
    (l : List Announcement) (h : (check_new_announcements env t st l).error = none) :
    ∀ i, i ∈ (check_new_announcements env t st l).invoked ↔
      (i ∈ l.map Announcement.id ∧ i ∉ st.seen_announcements) := by
  intro i
  rw [check_error_eq] at h
  rw [check_invoked_eq, reactAll_invoked_no_err env _ h]
  constructor
  · intro hi
    rcases List.mem_map.mp hi with ⟨a, ha, rfl⟩
    exact ⟨List.mem_map_of_mem _ ((selectNew_sublist _ _).subset ha),
      selectNew_not_seen _ _ a ha⟩
  · rintro ⟨h1, h2⟩
    rcases List.mem_map.mp h1 with ⟨a, ha, rfl⟩
    exact selectNew_mem _ _ a ha h2

theorem allInvoked_cons (r : CycleResult) (rs : List CycleResult) :
    allInvoked (r :: rs) = r.invoked ++ allInvoked rs := by
  simp [allInvoked]

theorem run_cycles_seen (env : Env) (envs : List (Nat × List Announcement))
    (st : MonitorState) :
    (run_cycles env envs st).1.seen_announcements
      = st.seen_announcements ∪ traceIdset envs := by
  induction envs generalizing st with
  | nil => simp [run_cycles, traceIdset]
  | cons e rest ih =>
    show (run_cycles env rest (check_new_announcements env e.1 st e.2).state).1.seen_announcements
      = _
    rw [ih, check_state_seen]
    show _ = st.seen_announcements ∪ ((e.2.map Announcement.id).toFinset ∪ traceIdset rest)
    rw [Finset.union_assoc]

theorem run_cycles_seen_mono (env : Env) (envs : List (Nat × List Announcement))
    (st : MonitorState) :
    st.seen_announcements ⊆ (run_cycles env envs st).1.seen_announcements := by
  rw [run_cycles_seen]
  exact Finset.subset_union_left

theorem run_cycles_invoked_mem (env : Env) (envs : List (Nat × List Announcement))
    (st : MonitorState) :
    ∀ i ∈ allInvoked (run_cycles env envs st).2,
      i ∉ st.seen_announcements ∧ i ∈ traceIdset envs := by
  induction envs generalizing st with
  | nil => simp [run_cycles, allInvoked]
  | cons e rest ih =>
    intro i hi
    have hi2 : i ∈ (check_new_announcements env e.1 st e.2).invoked
        ++ allInvoked (run_cycles env rest (check_new_announcements env e.1 st e.2).state).2 := by
      rw [← allInvoked_cons]
      exact hi
    rcases List.mem_append.mp hi2 with h1 | h2
    · refine ⟨check_invoked_not_seen env e.1 st e.2 i h1, ?_⟩
      show i ∈ (e.2.map Announcement.id).toFinset ∪ traceIdset rest
      exact Finset.mem_union_left _
        (List.mem_toFinset.mpr (check_invoked_in_ids env e.1 st e.2 i h1))
    · have hr := ih _ i h2
      constructor
      · intro hseen
        exact hr.1 (by
          rw [check_state_seen]
          exact Finset.mem_union_left _ hseen)
      · show i ∈ (e.2.map Announcement.id).toFinset ∪ traceIdset rest
        exact Finset.mem_union_right _ hr.2

theorem run_cycles_invoked_nodup (env : Env) (envs : List (Nat × List Announcement))
    (st : MonitorState) :
    (allInvoked (run_cycles env envs st).2).Nodup := by
  induction envs generalizing st with
  | nil => simp [run_cycles, allInvoked]
  | cons e rest ih =>
    show (allInvoked (check_new_announcements env e.1 st e.2
      :: (run_cycles env rest (check_new_announcements env e.1 st e.2).state).2)).Nodup
    rw [allInvoked_cons]
    refine List.Nodup.append (check_invoked_nodup env e.1 st e.2) (ih _) ?_
    intro i h1 h2
    exact (run_cycles_invoked_mem env rest _ i h2).1
      (check_invoked_in_seen env e.1 st e.2 i h1)

theorem run_cycles_results_claimed (env : Env) (envs : List (Nat × List Announcement))
    (st : MonitorState) :
    ∀ r ∈ (run_cycles env envs st).2, ∀ i ∈ r.invoked,
      i ∈ r.state.seen_announcements := by
  induction envs generalizing st with
  | nil => intro r hr; cases hr
  | cons e rest ih =>
    intro r hr
    have hr2 : r = check_new_announcements env e.1 st e.2
        ∨ r ∈ (run_cycles env rest (check_new_announcements env e.1 st e.2).state).2 :=
      List.mem_cons.mp hr
    rcases hr2 with rfl | hr3
    · exact check_invoked_in_seen env e.1 st e.2
    · exact ih _ r hr3

theorem run_cycles_invoked_complete (env : Env) (envs : List (Nat × List Announcement))
    (st : MonitorState)
    (h : ∀ r ∈ (run_cycles env envs st).2, r.error = none) :
    ∀ i, i ∈ allInvoked (run_cycles env envs st).2 ↔
      (i ∈ traceIdset envs ∧ i ∉ st.seen_announcements) := by
  induction envs generalizing st with
  | nil => simp [run_cycles, allInvoked, traceIdset]
  | cons e rest ih =>
    intro i
    have hr : (check_new_announcements env e.1 st e.2).error = none := by
      apply h
      exact List.mem_cons_self _ _
    have hrest : ∀ r ∈ (run_cycles env rest
        (check_new_announcements env e.1 st e.2).state).2, r.error = none := by
      intro r hrr
      apply h
      exact List.mem_cons_of_mem _ hrr
    have hsplit : i ∈ allInvoked (run_cycles env (e :: rest) st).2 ↔
        i ∈ (check_new_announcements env e.1 st e.2).invoked
          ∨ i ∈ allInvoked (run_cycles env rest
              (check_new_announcements env e.1 st e.2).state).2 := by
      show i ∈ allInvoked (check_new_announcements env e.1 st e.2
        :: (run_cycles env rest (check_new_announcements env e.1 st e.2).state).2) ↔ _
      rw [allInvoked_cons]
      exact List.mem_append
    rw [hsplit, check_invoked_complete env e.1 st e.2 hr i, ih _ hrest i,
      check_state_seen]
    show _ ↔ i ∈ (e.2.map Announcement.id).toFinset ∪ traceIdset rest ∧ _
    constructor
    · rintro (⟨h1, h2⟩ | ⟨h1, h2⟩)
      · exact ⟨Finset.mem_union_left _ (List.mem_toFinset.mpr h1), h2⟩
      · refine ⟨Finset.mem_union_right _ h1, fun hs => h2 (Finset.mem_union_left _ hs)⟩
    · rintro ⟨h1, h2⟩
      by_cases hid : i ∈ e.2.map Announcement.id
      · exact Or.inl ⟨hid, h2⟩
      · rcases Finset.mem_union.mp h1 with hu | hu
        · exact absurd (List.mem_toFinset.mp hu) hid
        · refine Or.inr ⟨hu, ?_⟩
          intro hmem
          rcases Finset.mem_union.mp hmem with hm | hm
          · exact h2 hm
          · exact hid (List.mem_toFinset.mp hm)

theorem run_cycles_state_indep (env env2 : Env) (envs : List (Nat × List Announcement))
    (st : MonitorState) :
    (run_cycles env envs st).1 = (run_cycles env2 envs st).1 := by
  induction envs generalizing st with
  | nil => rfl
  | cons e rest ih =>
    show (run_cycles env rest (check_new_announcements env e.1 st e.2).state).1
      = (run_cycles env2 rest (check_new_announcements env2 e.1 st e.2).state).1
    rw [check_state_indep env env2 e.1 st e.2]
    exact ih _

theorem run_monitor_init_seen (initial : List Announcement) :
    (run_monitor_init initial).seen_announcements
      = (initial.map Announcement.id).toFinset := by
  have key : ∀ (l : List Announcement) (s : Finset Nat),
      l.foldl (fun s a => insert a.id s) s = s ∪ (l.map Announcement.id).toFinset := by
    intro l
    induction l with
    | nil => intro s; simp
    | cons a rest ih =>
      intro s
      rw [List.foldl_cons, ih]
      ext i
      simp only [Finset.mem_union, Finset.mem_insert, List.map_cons, List.toFinset_cons]
      tauto
  show List.foldl (fun s a => insert a.id s) ∅ initial = _
  rw [key]
  simp

theorem monitorState_eq_of_fields (x y : MonitorState)
    (h1 : x.seen_announcements = y.seen_announcements)
    (h2 : x.last_refresh_time = y.last_refresh_time) : x = y := by
  cases x
  cases y
  cases h1
  cases h2
  rfl

/-- Environment in which every external call succeeds. -/
def envAll : Env := ⟨fun _ => true, fun _ => true, fun _ => true⟩

/-- A canonical listing title from the feed. -/
def omniTitle : String := "Market Support for Omni Network(OMNI)(KRW, BTC, USDT Market)"

/-- A feed item whose title does not match the listing pattern. -/
def annBad : Announcement :=
  ⟨1, "Completely unrelated title", "2024-05-01T12:00:00+09:00", "2024-05-01T12:00:00+09:00", ""⟩

/-- A feed item carrying a listing title. -/
def annOmni : Announcement :=
  ⟨2, omniTitle, "2024-05-01T12:00:00+09:00", "2024-05-01T12:00:00+09:00", ""⟩

/-- Items present at startup in the concrete startup scenario. -/
def annS1 : Announcement :=
  ⟨1, "Event notice 1", "2024-05-01T12:00:00+09:00", "2024-05-01T12:00:00+09:00", ""⟩

def annS2 : Announcement :=
  ⟨2, "Event notice 2", "2024-05-01T12:00:00+09:00", "2024-05-01T12:00:00+09:00", ""⟩

def annS3 : Announcement :=
  ⟨3, "Event notice 3", "2024-05-01T12:00:00+09:00", "2024-05-01T12:00:00+09:00", ""⟩

/-- The single genuinely new item of the concrete startup scenario. -/
def annOmni4 : Announcement :=
  ⟨4, omniTitle, "2024-05-01T12:00:00+09:00", "2024-05-01T12:00:00+09:00", ""⟩

/-- Three distinct items for the concrete ordering scenario. -/
def annA : Announcement := ⟨101, "Notice A", "", "", ""⟩

def annB : Announcement := ⟨102, "Notice B", "", "", ""⟩

def annC : Announcement := ⟨103, "Notice C", "", "", ""⟩

/-- Two items equal except for their timestamp fields. -/
def annT1 : Announcement :=
  ⟨9, "Notice T", "2024-05-01T12:00:00+09:00", "2024-05-01T12:00:00+09:00", ""⟩

def annT2 : Announcement :=
  ⟨9, "Notice T", "2099-01-01T00:00:00+09:00", "2098-12-31T23:59:00+09:00", ""⟩

/-- The record parsed out of the Uniswap test titles. -/
def uniRecord : ListingRecord := ⟨"UNI", "Uniswap", ["KRW", "BTC", "USDT"]⟩

/-- C1 counterexample: the claim says reacting to an announcement with an
unparsable title returns normally after delivering a best-effort
notification; on the concrete announcement `annBad` (whose timestamp is
well-formed, so the title is the only problem) the reaction instead raises
the `No match found` exception: `format_announcement_message` calls
`extract_from_text` before the order step and outside every handler, so no
notification is sent and no order is placed. -/
theorem C1_counterexample :
    process_new_announcement_message envAll annBad = Except.error PyErr.noMatch := rfl

/-- C1 (as amended): for every announcement whose timestamp parses but whose
title does not match the listing pattern, the reaction raises the
`No match found` exception (skipping both the order step and the
notification); the exception is handled only at the monitor loop boundary. -/
theorem C1_unparsable_title_raises (env : Env) (a : Announcement)
    (hiso : env.fromisoOk a.listed_at = true)
    (hnm : extract_market_info a.title = none) :
    process_new_announcement_message env a = Except.error PyErr.noMatch := by
  simp [process_new_announcement_message, hiso, extract_from_text, hnm]

/-- C1 witness: the amended theorem applied at the concrete announcement. -/
theorem C1_witness :
    envAll.fromisoOk annBad.listed_at = true
    ∧ extract_market_info annBad.title = none
    ∧ process_new_announcement_message envAll annBad = Except.error PyErr.noMatch :=
  ⟨by decide, by decide,
    C1_unparsable_title_raises envAll annBad (by decide) (by decide)⟩

/-- C2 counterexample: the claim says the Reaction Pipeline is invoked
exactly once for each id that first appears after startup.  Run two cycles
from an empty seen set over the batch `[annBad, annOmni]`: the reaction to
`annBad` raises, which aborts the cycle after `annOmni` (id 2) was already
claimed, and the second cycle skips it as seen — so id 2 first appears after
startup yet is reacted to zero times, not once. -/
theorem C2_counterexample :
    annOmni.id ∈ traceIdset [(0, [annBad, annOmni]), (60, [annBad, annOmni])]
    ∧ annOmni.id ∉ (⟨∅, none⟩ : MonitorState).seen_announcements
    ∧ List.count annOmni.id
        (allInvoked (run_cycles envAll
          [(0, [annBad, annOmni]), (60, [annBad, annOmni])] ⟨∅, none⟩).2) = 0 := by
  refine ⟨by decide, by decide, by decide⟩

/-- C2 (as amended): over any trace, each id is reacted to at most once; when
no reaction raises, the reacted ids are exactly the fetched ids outside the
initial seen set, each exactly once; every reacted id is in the seen set the
cycle committed before its reaction loop ran; the seen set only grows (no
order, notification or reaction failure unmarks an id); and the final state
is identical under every environment of external-call outcomes — but when a
reaction raises, ids claimed later in the same batch are never reacted to. -/
theorem C2_react_once_per_claimed (env : Env) (envs : List (Nat × List Announcement))
    (st0 : MonitorState)
    (hok : ∀ r ∈ (run_cycles env envs st0).2, r.error = none) :
    (allInvoked (run_cycles env envs st0).2).Nodup
    ∧ (∀ i, i ∈ allInvoked (run_cycles env envs st0).2 ↔
        (i ∈ traceIdset envs ∧ i ∉ st0.seen_announcements))
    ∧ (∀ r ∈ (run_cycles env envs st0).2, ∀ i ∈ r.invoked,
        i ∈ r.state.seen_announcements)
    ∧ st0.seen_announcements ⊆ (run_cycles env envs st0).1.seen_announcements
    ∧ (∀ env2 : Env, (run_cycles env2 envs st0).1 = (run_cycles env envs st0).1) :=
  ⟨run_cycles_invoked_nodup env envs st0,
   run_cycles_invoked_complete env envs st0 hok,
   run_cycles_results_claimed env envs st0,
   run_cycles_seen_mono env envs st0,
   fun env2 => run_cycles_state_indep env2 env envs st0⟩

/-- C2 witness: the amended theorem applied to a one-cycle trace whose single
reaction succeeds. -/
theorem C2_witness :
    (allInvoked (run_cycles envAll [(0, [annOmni])] ⟨∅, none⟩).2).Nodup :=
  (C2_react_once_per_claimed envAll [(0, [annOmni])] ⟨∅, none⟩ (by decide)).1

/-- C3 counterexample: the claim says any malformed response body degrades to
an empty sequence; a primary response whose body decodes as JSON but lacks
the expected `data`/`notices` structure instead raises a `KeyError` out of
`fetch_announcements`, because only `ProxyError`, `RequestException` and
JSON decode errors are caught on the primary path. -/
theorem C3_counterexample :
    fetch_announcements (AttemptResult.ok Body.malformed)
        (AttemptResult.ok (Body.notices []))
      = Except.error PyErr.keyError := rfl

/-- C3 (as amended): a successful response returns the reversed notice list;
a non-decodable body, any other request error, a proxy failure with a failing
direct retry (of any kind) all return the empty list without raising; a proxy
failure with a successful direct retry returns the retry's reversed list —
but a decodable, structurally malformed body on the primary attempt raises a
`KeyError` to the caller. -/
theorem C3_fetch_failure_containment :
    (∀ (l : List Announcement) (fb : AttemptResult),
        fetch_announcements (AttemptResult.ok (Body.notices l)) fb
          = Except.ok l.reverse)
    ∧ (∀ fb, fetch_announcements (AttemptResult.ok Body.undecodable) fb = Except.ok [])
    ∧ (∀ fb, fetch_announcements AttemptResult.requestError fb = Except.ok [])
    ∧ (∀ l, fetch_announcements AttemptResult.proxyError
        (AttemptResult.ok (Body.notices l)) = Except.ok l.reverse)
    ∧ fetch_announcements AttemptResult.proxyError AttemptResult.proxyError = Except.ok []
    ∧ fetch_announcements AttemptResult.proxyError AttemptResult.requestError = Except.ok []
    ∧ fetch_announcements AttemptResult.proxyError (AttemptResult.ok Body.undecodable)
        = Except.ok []
    ∧ fetch_announcements AttemptResult.proxyError (AttemptResult.ok Body.malformed)
        = Except.ok []
    ∧ (∀ fb, fetch_announcements (AttemptResult.ok Body.malformed) fb
        = Except.error PyErr.keyError) :=
  ⟨fun l fb => rfl, fun fb => rfl, fun fb => rfl, fun l => rfl, rfl, rfl, rfl, rfl,
   fun fb => rfl⟩

/-- C4 (confirmed): over any schedule of iteration outcomes, as long as no
`KeyboardInterrupt` occurs every iteration — including every one that threw
an exception — is followed by the interval sleep and by the next iteration,
and the loop is still running at the end of the schedule; when an interrupt
occurs, the loop runs exactly the iterations before it plus the interrupted
one and then terminates. -/
theorem C4_loop_survives_cycle_errors (pre post : List CycleOutcome)
    (h : CycleOutcome.interrupt ∉ pre) :
    run_monitor_loop pre = ⟨pre, pre.length, false⟩
    ∧ run_monitor_loop (pre ++ CycleOutcome.interrupt :: post)
        = ⟨pre ++ [CycleOutcome.interrupt], pre.length, true⟩ := by
  induction pre with
  | nil => exact ⟨rfl, rfl⟩
  | cons c rest ih =>
    have hc : c ≠ CycleOutcome.interrupt := by
      intro hh
      exact h (by rw [hh]; exact List.mem_cons_self _ _)
    have hrest : CycleOutcome.interrupt ∉ rest := by
      intro hh
      exact h (List.mem_cons_of_mem _ hh)
    obtain ⟨ih1, ih2⟩ := ih hrest
    cases c with
    | interrupt => exact absurd rfl hc
    | ok =>
      refine ⟨?_, ?_⟩
      · show (⟨CycleOutcome.ok :: (run_monitor_loop rest).executed,
            (run_monitor_loop rest).sleeps + 1, (run_monitor_loop rest).stopped⟩ :
            LoopTrace) = _
        rw [ih1]
        rfl
      · show (⟨CycleOutcome.ok ::
              (run_monitor_loop (rest ++ CycleOutcome.interrupt :: post)).executed,
            (run_monitor_loop (rest ++ CycleOutcome.interrupt :: post)).sleeps + 1,
            (run_monitor_loop (rest ++ CycleOutcome.interrupt :: post)).stopped⟩ :
            LoopTrace) = _
        rw [ih2]
        rfl
    | exc e =>
      refine ⟨?_, ?_⟩
      · show (⟨CycleOutcome.exc e :: (run_monitor_loop rest).executed,
            (run_monitor_loop rest).sleeps + 1, (run_monitor_loop rest).stopped⟩ :
            LoopTrace) = _
        rw [ih1]
        rfl
      · show (⟨CycleOutcome.exc e ::
              (run_monitor_loop (rest ++ CycleOutcome.interrupt :: post)).executed,
            (run_monitor_loop (rest ++ CycleOutcome.interrupt :: post)).sleeps + 1,
            (run_monitor_loop (rest ++ CycleOutcome.interrupt :: post)).stopped⟩ :
            LoopTrace) = _
        rw [ih2]
        rfl

/-- C4 witness: the theorem applied to a schedule with one normal iteration,
one iteration that throws, and then an interrupt. -/
theorem C4_witness :
    run_monitor_loop [CycleOutcome.ok, CycleOutcome.exc PyErr.noMatch]
        = ⟨[CycleOutcome.ok, CycleOutcome.exc PyErr.noMatch], 2, false⟩
    ∧ run_monitor_loop ([CycleOutcome.ok, CycleOutcome.exc PyErr.noMatch]
          ++ CycleOutcome.interrupt :: [CycleOutcome.ok])
        = ⟨[CycleOutcome.ok, CycleOutcome.exc PyErr.noMatch]
            ++ [CycleOutcome.interrupt], 2, true⟩ :=
  C4_loop_survives_cycle_errors [CycleOutcome.ok, CycleOutcome.exc PyErr.noMatch]
    [CycleOutcome.ok] (by decide)

/-- C5 (confirmed): a successful fetch returns the reversal of the
newest-first notice list (concretely `[C, B, A]` comes back `[A, B, C]`), and
in any error-free cycle the monitor reacts exactly to the new announcements,
in the order in which the fetched (already reversed, hence oldest-first) list
presents them — the reacted list is the id image of a sublist of the fetched
list. -/
theorem C5_oldest_first_order :
    (∀ (l : List Announcement) (fb : AttemptResult),
        fetch_announcements (AttemptResult.ok (Body.notices l)) fb
          = Except.ok l.reverse)
    ∧ fetch_announcements (AttemptResult.ok (Body.notices [annC, annB, annA]))
        AttemptResult.requestError = Except.ok [annA, annB, annC]
    ∧ (∀ (env : Env) (t : Nat) (st : MonitorState) (l : List Announcement),
        (check_new_announcements env t st l).error = none →
          (check_new_announcements env t st l).invoked
            = (selectNew st.seen_announcements l).2.map Announcement.id
          ∧ (selectNew st.seen_announcements l).2.Sublist l) := by
  refine ⟨fun l fb => rfl, rfl, fun env t st l h => ⟨?_, selectNew_sublist _ _⟩⟩
  rw [check_error_eq] at h
  rw [check_invoked_eq, reactAll_invoked_no_err env _ h]

/-- C5 witness: the cycle-order part of the theorem applied to a concrete
error-free cycle. -/
theorem C5_witness :
    (check_new_announcements envAll 0 ⟨∅, none⟩ [annOmni]).invoked
        = (selectNew (⟨∅, none⟩ : MonitorState).seen_announcements [annOmni]).2.map
            Announcement.id
    ∧ (selectNew (⟨∅, none⟩ : MonitorState).seen_announcements [annOmni]).2.Sublist
        [annOmni] :=
  C5_oldest_first_order.2.2 envAll 0 ⟨∅, none⟩ [annOmni] (by decide)

/-- C6 (confirmed): the startup fetch populates the seen set with exactly the
fetched ids and no reaction happens for them in any later trace; concretely,
after an initial fetch of ids 1, 2, 3, a cycle fetching ids 1, 2, 3, 4 reacts
exactly to id 4. -/
theorem C6_startup_population (env : Env) (initial : List Announcement)
    (envs : List (Nat × List Announcement)) :
    (run_monitor_init initial).seen_announcements
        = (initial.map Announcement.id).toFinset
    ∧ (∀ a ∈ initial,
        a.id ∉ allInvoked (run_cycles env envs (run_monitor_init initial)).2)
    ∧ allInvoked (run_cycles envAll [(0, [annS1, annS2, annS3, annOmni4])]
        (run_monitor_init [annS1, annS2, annS3])).2 = [4] := by
  refine ⟨run_monitor_init_seen initial, ?_, by decide⟩
  intro a ha hmem
  have hnotseen := (run_cycles_invoked_mem env envs _ a.id hmem).1
  rw [run_monitor_init_seen] at hnotseen
  exact hnotseen (List.mem_toFinset.mpr (List.mem_map_of_mem _ ha))

/-- C6 witness: the theorem applied to the concrete startup scenario,
discharging the membership hypothesis for the startup item with id 1. -/
theorem C6_witness :
    annS1.id ∉ allInvoked (run_cycles envAll [(0, [annS1, annS2, annS3, annOmni4])]
      (run_monitor_init [annS1, annS2, annS3])).2 :=
  (C6_startup_population envAll [annS1, annS2, annS3]
    [(0, [annS1, annS2, annS3, annOmni4])]).2.1 annS1 (by decide)

/-- C7 counterexample: the claim says a missing space before the trailing
`Market` keyword still yields the same record; the pattern requires at least
one whitespace character before `Market`, so the space-free variant yields no
match at all while the spaced variant parses. -/
theorem C7_counterexample :
    extract_market_info "Market Support for Uniswap(UNI)(KRW, BTC, USDTMarket)" = none
    ∧ extract_market_info "Market Support for Uniswap (UNI) (KRW, BTC, USDT Market)"
        = some uniRecord := by
  refine ⟨by decide, by decide⟩

/-- C7 (as amended): zero or one space before each parenthesis and irregular
internal spacing yield the same record, but a missing space before the
trailing `Market` keyword makes the pattern fail, yielding no match instead
of the same record. -/
theorem C7_whitespace_tolerance :
    extract_market_info "Market Support for Uniswap(UNI)(KRW, BTC, USDT Market)"
        = some uniRecord
    ∧ extract_market_info "Market Support for Uniswap (UNI) (KRW, BTC, USDT Market)"
        = some uniRecord
    ∧ extract_market_info "Market Support for Uniswap (UNI)(KRW,BTC,  USDT Market)"
        = some uniRecord
    ∧ extract_market_info "Market Support for Uniswap(UNI)(KRW, BTC, USDTMarket)"
        = none := by
  refine ⟨by decide, by decide, by decide, by decide⟩

/-- C8 counterexample: the claim says the `Market` keyword is stripped only
as a whole word; the code's substitution deletes every case-insensitive
occurrence, so the token `SuperMarket` becomes `Super` where the spec's
whole-word stripping (`parse_quote_currencies_spec`) keeps `SuperMarket`. -/
theorem C8_counterexample :
    extract_market_info "Market Support for Foo(FOO)(SuperMarket, KRW Market)"
        = some ⟨"FOO", "Foo", ["Super", "KRW"]⟩
    ∧ parse_quote_currencies_spec "SuperMarket, KRW" = ["SuperMarket", "KRW"]
    ∧ (["Super", "KRW"] : List String) ≠ ["SuperMarket", "KRW"] := by
  refine ⟨by decide, by decide, by decide⟩

/-- C8 (as amended): `quoteCurrencies` is computed by splitting the second
captured group on commas, deleting from each token every case-insensitive
occurrence of `Market` with adjacent whitespace (also inside longer words,
not only as a whole word), dropping tokens that become empty, preserving
order; its length equals the number of comma-separated tokens that are
non-empty after that stripping, and a one-entry market clause yields a
one-entry list. -/
theorem C8_quote_currencies :
    (∀ mt : String, (parse_quote_currencies mt).length
        = (splitComma mt.toList).countP
            (fun c => !(pyStrip (reSubMarket (pyStrip c))).isEmpty))
    ∧ parse_quote_currencies "KRW Market" = ["KRW"]
    ∧ extract_market_info "Market Support for Bitcoin Cash(BCH)(KRW Market)"
        = some ⟨"BCH", "Bitcoin Cash", ["KRW"]⟩
    ∧ parse_quote_currencies "SuperMarket, KRW" = ["Super", "KRW"] := by
  refine ⟨?_, by decide, by decide, by decide⟩
  intro mt
  rw [parse_quote_currencies]
  simp only [List.length_map, ← List.countP_eq_length_filter, List.countP_map]
  rfl

/-- C9 counterexample: the claim says every cycle that finds zero new items
sends the heartbeat when none was sent in the last hour; a cycle whose fetch
returned the empty list finds zero new items and has never sent a heartbeat,
yet returns early without sending one. -/
theorem C9_counterexample :
    (check_new_announcements envAll 5000 ⟨∅, none⟩ []).invoked = []
    ∧ (⟨∅, none⟩ : MonitorState).last_refresh_time = none
    ∧ (check_new_announcements envAll 5000 ⟨∅, none⟩ []).heartbeatSent = false := by
  refine ⟨by decide, rfl, by decide⟩

/-- C9 (as amended): in every cycle whose fetch returned a non-empty list and
which found zero new items, the heartbeat is sent exactly when none was ever
sent or the last one is more than 3600 seconds old; sending records the
current time, not sending leaves the recorded time unchanged, and no reaction
happens. -/
theorem C9_heartbeat_interval (env : Env) (t : Nat) (st : MonitorState)
    (l : List Announcement) (hne : l ≠ [])
    (hzero : (selectNew st.seen_announcements l).2 = []) :
    ((check_new_announcements env t st l).heartbeatSent = true ↔
        (st.last_refresh_time = none
          ∨ ∃ lr, st.last_refresh_time = some lr ∧ 3600 < t - lr))
    ∧ ((check_new_announcements env t st l).heartbeatSent = true →
        (check_new_announcements env t st l).state.last_refresh_time = some t)
    ∧ ((check_new_announcements env t st l).heartbeatSent = false →
        (check_new_announcements env t st l).state.last_refresh_time
          = st.last_refresh_time)
    ∧ (check_new_announcements env t st l).invoked = [] := by
  have hhb := check_heartbeat_eq env t st l hne
  have hlr := check_lastrefresh_eq env t st l hne
  rw [hzero] at hhb hlr
  simp only [List.isEmpty_nil, Bool.true_and] at hhb hlr
  refine ⟨?_, ?_, ?_, ?_⟩
  · rw [hhb]
    cases hcase : st.last_refresh_time with
    | none => simp [heartbeatDue]
    | some lr => simp [heartbeatDue]
  · intro hsent
    rw [hhb] at hsent
    rw [hlr, hsent]
    simp
  · intro hsent
    rw [hhb] at hsent
    rw [hlr, hsent]
    simp
  · rw [check_invoked_eq, hzero]
    rfl

/-- C9 witness: the theorem applied to a concrete no-news cycle whose last
heartbeat is old enough, showing the heartbeat fires and is recorded. -/
theorem C9_witness :
    (check_new_announcements envAll 5000 ⟨{4}, some 0⟩
        [annOmni4]).state.last_refresh_time = some 5000 := by
  have h := C9_heartbeat_interval envAll 5000 ⟨{4}, some 0⟩ [annOmni4]
    (by decide) (by decide)
  exact h.2.1 (by decide)

/-- C10 (confirmed): whether a fetched announcement is selected as new and
claimed depends only on its id and the current seen set — two fetched lists
with the same ids (in particular, lists differing only in their timestamp
fields) produce the same grown seen set, the same claimed id sequence, and
the same post-cycle monitor state under any environments; no definition of
the cycle consults `is_recent_announcement`, so announcement age imposes no
filter. -/
theorem C10_selection_ignores_timestamps (st : MonitorState)
    (l1 l2 : List Announcement)
    (h : l1.map Announcement.id = l2.map Announcement.id) :
    (selectNew st.seen_announcements l1).1 = (selectNew st.seen_announcements l2).1
    ∧ (selectNew st.seen_announcements l1).2.map Announcement.id
        = (selectNew st.seen_announcements l2).2.map Announcement.id
    ∧ ∀ (env env2 : Env) (t : Nat),
        (check_new_announcements env t st l1).state
          = (check_new_announcements env2 t st l2).state := by
  obtain ⟨h1, h2⟩ := selectNew_id_congr st.seen_announcements l1 l2 h
  refine ⟨h1, h2, ?_⟩
  intro env env2 t
  cases l1 with
  | nil =>
    have hl2 : l2 = [] := by
      cases l2 with
      | nil => rfl
      | cons b r => simp at h
    rw [hl2]
    rfl
  | cons a r1 =>
    cases l2 with
    | nil => simp at h
    | cons b r2 =>
      have hemp : (selectNew st.seen_announcements (a :: r1)).2.isEmpty
          = (selectNew st.seen_announcements (b :: r2)).2.isEmpty := by
        rcases e1 : (selectNew st.seen_announcements (a :: r1)).2 with _ | ⟨x, xs⟩
        · rcases e2 : (selectNew st.seen_announcements (b :: r2)).2 with _ | ⟨y, ys⟩
          · rfl
          · rw [e1, e2] at h2
            simp at h2
        · rcases e2 : (selectNew st.seen_announcements (b :: r2)).2 with _ | ⟨y, ys⟩
          · rw [e1, e2] at h2
            simp at h2
          · rfl
      refine monitorState_eq_of_fields _ _ ?_ ?_
      · rw [check_state_seen, check_state_seen, h]
      · rw [check_lastrefresh_eq env t st _ (by simp),
          check_lastrefresh_eq env2 t st _ (by simp), hemp]

/-- C10 witness: the theorem applied to two concrete one-item lists that
differ only in their timestamp fields. -/
theorem C10_witness :
    (selectNew (⟨∅, none⟩ : MonitorState).seen_announcements [annT1]).1
        = (selectNew (⟨∅, none⟩ : MonitorState).seen_announcements [annT2]).1 :=
  (C10_selection_ignores_timestamps ⟨∅, none⟩ [annT1] [annT2] (by decide)).1

